import Mathlib

/-!
Shallow embedding of the smarthome emulator module's core logic:
the ROM storage service (`rom-storage.service.ts`) and the emulator
component (`emulator.component.ts`).

Strings are Lean `String`s (in this toolchain a `String` wraps a
`List Char`, so string functions are modelled on the character list).
JavaScript's `toLowerCase` is modelled by `Char.toLower` (ASCII
lowering), which agrees with it on all extension strings involved.
`ArrayBuffer` payloads are modelled as opaque byte lists.
-/

namespace Emu

/-- Binary payloads (`ArrayBuffer` contents) as byte lists. -/
abbrev Bytes := List Nat

/-! ### String helpers used by the source -/

/-- Helper for splitting a character list at a separator: returns the first
segment and the list of remaining segments (so the full split is
`fst :: snd`, which is never empty — like JavaScript `String.split`). -/
def splitAux (sep : Char) : List Char → List Char × List (List Char)
  | [] => ([], [])
  | c :: cs =>
    let r := splitAux sep cs
    if c = sep then ([], r.1 :: r.2) else (c :: r.1, r.2)

/-- `s.split(sep)` as a list of segments; never empty. -/
def splitOnChar (sep : Char) (cs : List Char) : List (List Char) :=
  (splitAux sep cs).1 :: (splitAux sep cs).2

/-- `s.split(sep).pop()`: the final segment (the part after the last
separator, or the whole list when the separator does not occur). -/
def lastSegment (sep : Char) (cs : List Char) : List Char :=
  ((splitAux sep cs).2).getLastD (splitAux sep cs).1

/-- `needle` occurs at the head of `hay`. -/
def isPre : List Char → List Char → Bool
  | [], _ => true
  | _ :: _, [] => false
  | a :: as, b :: bs => a = b && isPre as bs

/-- JavaScript `hay.includes(needle)`: substring occurrence. -/
def hasSub (needle : List Char) : List Char → Bool
  | [] => isPre needle []
  | c :: t => isPre needle (c :: t) || hasSub needle t

/-- Three-way lexicographic comparison of character lists by code point,
returning a JavaScript-comparator-style integer; models `localeCompare`
(it agrees with it on the names appearing in the claims). -/
def cmpChars : List Char → List Char → Int
  | [], [] => 0
  | [], _ :: _ => -1
  | _ :: _, [] => 1
  | a :: as, b :: bs => if a < b then -1 else if b < a then 1 else cmpChars as bs

/-- `a.localeCompare(b)` model. -/
def localeCompare (a b : String) : Int := cmpChars a.data b.data

/-- `s.toLowerCase()` model (ASCII lowering). -/
def strLower (s : String) : String := ⟨s.data.map Char.toLower⟩

/-- `file.name.replace(/\.[^/.]+$/, '')`: strips a final extension — a dot
followed by one or more characters none of which is a dot or a slash. -/
def stripExt (s : String) : String :=
  let rev := s.data.reverse
  let seg := rev.takeWhile fun c => c ≠ '.' && c ≠ '/'
  let rest := rev.drop seg.length
  match rest with
  | '.' :: r => if seg.isEmpty then s else ⟨r.reverse⟩
  | _ => s

/-! ### The static system table (`SYSTEM_INFO`) -/

/-- One entry of the static system table: display name, recognized file
extensions, and the engine-core identifier. -/
structure SysInfo where
  name : String
  extensions : List String
  core : String
  deriving DecidableEq, Repr

/-- The static `SYSTEM_INFO` table, as an association list in declaration
order (object-literal key order, which is the `Object.entries` iteration
order used by `detectSystem`). -/
def SYSTEM_INFO : List (String × SysInfo) :=
  [ ("nes", { name := "Nintendo (NES)", extensions := [".nes"], core := "nes" }),
    ("snes", { name := "Super Nintendo (SNES)", extensions := [".smc", ".sfc"], core := "snes" }),
    ("gb", { name := "Game Boy", extensions := [".gb"], core := "gb" }),
    ("gbc", { name := "Game Boy Color", extensions := [".gbc"], core := "gb" }),
    ("gba", { name := "Game Boy Advance", extensions := [".gba"], core := "gba" }),
    ("n64", { name := "Nintendo 64", extensions := [".n64", ".z64", ".v64"], core := "n64" }),
    ("nds", { name := "Nintendo DS", extensions := [".nds"], core := "nds" }),
    ("psx", { name := "PlayStation", extensions := [".bin", ".iso", ".cue", ".img"], core := "psx" }),
    ("segaMD", { name := "Sega Genesis/Mega Drive", extensions := [".md", ".gen", ".bin"], core := "segaMD" }),
    ("segaMS", { name := "Sega Master System", extensions := [".sms"], core := "segaMS" }),
    ("segaGG", { name := "Sega Game Gear", extensions := [".gg"], core := "segaGG" }),
    ("segaCD", { name := "Sega CD", extensions := [".iso", ".bin", ".cue"], core := "segaCD" }),
    ("segaSaturn", { name := "Sega Saturn", extensions := [".iso", ".bin", ".cue"], core := "segaSaturn" }),
    ("atari2600", { name := "Atari 2600", extensions := [".a26"], core := "atari2600" }),
    ("atari7800", { name := "Atari 7800", extensions := [".a78"], core := "atari7800" }) ]

/-- The closed set of system-type tags (the `SystemType` union). -/
def systemTags : List String := SYSTEM_INFO.map (·.1)

/-- `'.' + fileName.split('.').pop()?.toLowerCase()`: the (lowercased)
extension `detectSystem` looks up. -/
def extOf (fileName : String) : String :=
  ⟨'.' :: (lastSegment '.' fileName.data).map Char.toLower⟩

/-- Own-key lookup of a tag in the static table (the association-list view
of the object literal's own entries; this is NOT the runtime bracket
access, which also sees inherited properties — see `getSystemInfoProp`). -/
def lookupSystemInfo (s : String) : Option SysInfo :=
  (SYSTEM_INFO.find? fun p => p.1 = s).map (·.2)

/-- Property names every object literal inherits from `Object.prototype`
(including the Annex B accessors): bracket access on `SYSTEM_INFO` with
one of these names yields a truthy inherited value, not `undefined`. -/
def objectPrototypeProps : List String :=
  ["constructor", "hasOwnProperty", "isPrototypeOf", "propertyIsEnumerable",
   "toLocaleString", "toString", "valueOf", "__proto__", "__defineGetter__",
   "__defineSetter__", "__lookupGetter__", "__lookupSetter__"]

/-- Result of the JavaScript property access `SYSTEM_INFO[tag]`: an own
key of the literal yields its `SysInfo`; a property name inherited from
`Object.prototype` yields a truthy value that is not a `SysInfo`; any
other name yields `undefined` (falsy). -/
inductive SysProp where
  | own (info : SysInfo)
  | inherited
  | absent
  deriving DecidableEq, Repr

/-- `SYSTEM_INFO[tag]` with prototype-chain semantics. -/
def getSystemInfoProp (s : String) : SysProp :=
  match SYSTEM_INFO.find? fun p => p.1 = s with
  | some p => SysProp.own p.2
  | none =>
    if objectPrototypeProps.contains s then SysProp.inherited else SysProp.absent

/-- `detectSystem(fileName)`: linear scan of `SYSTEM_INFO` in declaration
order for the first system whose extension list contains the lowercased
extension. -/
def detectSystem (fileName : String) : Option String :=
  (SYSTEM_INFO.find? fun p => p.2.extensions.contains (extOf fileName)).map (·.1)

/-- The table scan of `detectSystem`, as a function of the already-computed
extension: the first-declared system whose extension list contains it. -/
def lookupByExt (ext : String) : Option String :=
  (SYSTEM_INFO.find? fun p => p.2.extensions.contains ext).map (·.1)

/-! ### Data model (`GameRom`, `SaveState`) and the IndexedDB store

The persistent store is modelled as in-memory lists kept in primary-key
order.  `id : Option Nat` mirrors the optional `id?` field: `none` before
the store assigns a key.  Auto-increment keys start at 1, as in IndexedDB;
`nextRomId` / `nextSaveId` model the store's key generators. -/

/-- `GameRom` record. -/
structure GameRom where
  id : Option Nat := none
  name : String
  fileName : String
  system : String
  data : Bytes
  coverArt : Option String := none
  dateAdded : Nat
  lastPlayed : Option Nat := none
  deriving DecidableEq, Repr

/-- `SaveState` record. -/
structure SaveState where
  id : Option Nat := none
  romId : Nat
  slot : Nat
  data : Bytes
  screenshot : Option String := none
  dateSaved : Nat
  deriving DecidableEq, Repr

/-- The `emulator-db` database: the `roms` and `saves` object stores
with their auto-increment key generators. -/
structure DB where
  roms : List GameRom
  nextRomId : Nat
  saves : List SaveState
  nextSaveId : Nat
  deriving DecidableEq, Repr

/-- A freshly created database. -/
def DB.empty : DB := { roms := [], nextRomId := 1, saves := [], nextSaveId := 1 }

/-- `getAllFromIndex('saves', 'by-rom', romId)`: all save states for a ROM.
With `saves` kept in primary-key order, the index returns the matching
records in that same order (all index keys equal, ties by primary key). -/
def getSavesByRom (db : DB) (romId : Nat) : List SaveState :=
  db.saves.filter fun s => s.romId = romId

/-- `db.put('saves', st)` where `st` carries key `k`: replaces the record
with key `k` when one exists, otherwise stores `st` under `k` (and keeps
the key generator ahead of `k`). -/
def putSaveAt (db : DB) (k : Nat) (st : SaveState) : DB :=
  if db.saves.any fun r => r.id = some k then
    { db with saves := db.saves.map fun r => if r.id = some k then st else r }
  else
    { db with saves := db.saves ++ [st], nextSaveId := max db.nextSaveId (k + 1) }

/-- An input file: its name and contents. -/
structure FileInput where
  name : String
  data : Bytes
  deriving DecidableEq, Repr

/-- `addRom(file, system?)`: resolves the system tag via the explicit
override (JavaScript `system || this.detectSystem(file.name)`, so an
empty-string override is falsy and falls through) else `detectSystem`;
throws `Unknown file type: <name>` when neither yields a tag; otherwise
builds the record with the extension-stripped display name, stores it
under a fresh key and returns it with its assigned id. -/
def addRom (db : DB) (file : FileInput) (system : Option String) (now : Nat) :
    Except String (DB × GameRom) :=
  let detectedSystem :=
    match system with
    | some s => if s = "" then detectSystem file.name else some s
    | none => detectSystem file.name
  match detectedSystem with
  | none => .error ("Unknown file type: " ++ file.name)
  | some sys =>
    let rom : GameRom :=
      { name := stripExt file.name, fileName := file.name, system := sys,
        data := file.data, dateAdded := now }
    let stored := { rom with id := some db.nextRomId }
    .ok ({ db with roms := db.roms ++ [stored], nextRomId := db.nextRomId + 1 },
         stored)

/-- `getAllRoms()`. -/
def getAllRoms (db : DB) : List GameRom := db.roms

/-- One step of `deleteRom`'s cascade: `db.delete('saves', save.id)`,
guarded by the JavaScript truthiness check `if (save.id)` (`undefined`
and `0` are falsy). -/
def delSaveStep (cur : DB) (s : SaveState) : DB :=
  match s.id with
  | some sid =>
    if sid ≠ 0 then { cur with saves := cur.saves.filter fun r => r.id ≠ some sid }
    else cur
  | none => cur

/-- `deleteRom(id)`: deletes the ROM record with key `id`, then fetches the
save states indexed by that ROM id and deletes each of them by key. -/
def deleteRom (db : DB) (id : Nat) : DB :=
  let db1 := { db with roms := db.roms.filter fun r => r.id ≠ some id }
  let saves := getSavesByRom db1 id
  saves.foldl delSaveStep db1

/-- `updateLastPlayed(id)`: read-modify-write of the `lastPlayed` field. -/
def updateLastPlayed (db : DB) (id : Nat) (now : Nat) : DB :=
  match db.roms.find? fun r => r.id = some id with
  | none => db
  | some _ =>
    { db with roms := db.roms.map fun r =>
        if r.id = some id then { r with lastPlayed := some now } else r }

/-- `saveSaveState(romId, slot, data, screenshot?)`: scans the records
indexed by `romId` for one with the same slot; builds the new record with
that record's id when found (else no id) and `put`s it — replacing in
place when an id was found, inserting under a fresh key otherwise. -/
def saveSaveState (db : DB) (romId slot : Nat) (data : Bytes)
    (screenshot : Option String) (now : Nat) : DB :=
  let existing := getSavesByRom db romId
  let existingSave := existing.find? fun s => s.slot = slot
  let saveState : SaveState :=
    { id := existingSave.bind (·.id), romId := romId, slot := slot,
      data := data, screenshot := screenshot, dateSaved := now }
  match saveState.id with
  | some k => putSaveAt db k saveState
  | none =>
    let stored := { saveState with id := some db.nextSaveId }
    { db with saves := db.saves ++ [stored], nextSaveId := db.nextSaveId + 1 }

/-! ### Well-formedness of the store

Invariants IndexedDB maintains for these object stores: every stored
record carries a key, keys are below the key generator and at least 1,
and keys are pairwise distinct. -/

/-- The `saves` store is well-formed: every stored record carries a
nonzero key below the key generator (IndexedDB keys start at 1), keys are
pairwise distinct, and the generator is at least 1. -/
def SavesWF (db : DB) : Prop :=
  (∀ s ∈ db.saves, s.id ≠ none ∧ s.id ≠ some 0 ∧ s.id.getD 0 < db.nextSaveId) ∧
  (db.saves.Pairwise fun a b => a.id ≠ b.id) ∧
  1 ≤ db.nextSaveId

/-- The `roms` store is well-formed. -/
def RomsWF (db : DB) : Prop :=
  (∀ r ∈ db.roms, r.id ≠ none ∧ r.id ≠ some 0 ∧ r.id.getD 0 < db.nextRomId) ∧
  (db.roms.Pairwise fun a b => a.id ≠ b.id) ∧
  1 ≤ db.nextRomId

/-- At most one save-state record per `(romId, slot)` pair — the invariant
the upsert emulates (§3 of the design). -/
def SlotUnique (db : DB) : Prop :=
  db.saves.Pairwise fun a b => ¬(a.romId = b.romId ∧ a.slot = b.slot)

/-! ### The emulator component (Session Controller) -/

/-- The comparator passed to `this.filteredRoms.sort`:
both timestamps present — more recent first (`b - a`);
only `a` timestamped — `a` first; only `b` — `b` first;
neither — `localeCompare` on names. -/
def romCmp (a b : GameRom) : Int :=
  match a.lastPlayed, b.lastPlayed with
  | some ta, some tb => (tb : Int) - (ta : Int)
  | some _, none => -1
  | none, some _ => 1
  | none, none => localeCompare a.name b.name

/-- The non-strict order induced by the comparator (`romCmp a b <= 0`
means the sort may keep `a` before `b`). -/
def romLe (a b : GameRom) : Prop := romCmp a b ≤ 0

instance : DecidableRel romLe := fun a b => by unfold romLe; infer_instance

/-- The filter predicate of `filterRoms`: system tag matches the selected
filter (or the filter is `'all'`), and the lowercased name contains the
lowercased search term (an empty term matches everything). -/
def romMatches (selectedSystem searchTerm : String) (rom : GameRom) : Bool :=
  (selectedSystem = "all" || rom.system = selectedSystem) &&
  (searchTerm = "" || hasSub (strLower searchTerm).data (strLower rom.name).data)

/-- `filterRoms()`: filter by system and search term, then sort with the
last-played/name comparator.  JavaScript `Array.prototype.sort` is stable,
so it is modelled by (stable) insertion sort on the induced order. -/
def filterRoms (selectedSystem searchTerm : String) (roms : List GameRom) :
    List GameRom :=
  (roms.filter (romMatches selectedSystem searchTerm)).insertionSort romLe

/-- One observable step of an ingestion batch. -/
inductive IngestEvent where
  | added (name : String)
  | failed (name message : String)
  | reloaded
  deriving DecidableEq, Repr

/-- The loop body state of `addFiles`: the store, the component's `error`
field, and the trace of what happened so far. -/
structure IngestState where
  db : DB
  error : String
  trace : List IngestEvent
  deriving DecidableEq, Repr

/-- One iteration of the `for (const file of files)` loop: `await addRom`
inside `try`, setting `error` to `Failed to add <name>: <message>` on
failure (overwriting any previous value) and continuing either way. -/
def addOneFile (now : Nat) (st : IngestState) (file : FileInput) : IngestState :=
  match addRom st.db file none now with
  | .ok (db', _) =>
    { st with db := db', trace := st.trace ++ [IngestEvent.added file.name] }
  | .error msg =>
    { st with
      error := "Failed to add " ++ file.name ++ ": " ++ msg
      trace := st.trace ++ [IngestEvent.failed file.name msg] }

/-- `addFiles(files)`: clears `error`, processes the files strictly in
submission order (each `addRom` awaited before the next begins), then
reloads the catalog once (`loadRoms`, recorded as a `reloaded` event). -/
def addFiles (db : DB) (files : List FileInput) (now : Nat) : IngestState :=
  let st0 : IngestState := { db := db, error := "", trace := [] }
  let st1 := files.foldl (addOneFile now) st0
  { st1 with trace := st1.trace ++ [IngestEvent.reloaded] }

/-- The component's post-ingestion catalog view: `loadRoms` re-reads every
record and re-filters. -/
def reloadedView (st : IngestState) (selectedSystem searchTerm : String) :
    List GameRom :=
  filterRoms selectedSystem searchTerm (getAllRoms st.db)

/-- The outcome of ingesting one file, which depends only on the filename:
`addRom` without an explicit system succeeds exactly when `detectSystem`
recognizes the extension. -/
def fileOutcome (file : FileInput) : IngestEvent :=
  match detectSystem file.name with
  | some _ => IngestEvent.added file.name
  | none => IngestEvent.failed file.name ("Unknown file type: " ++ file.name)

/-- The error message left by an ingestion batch: the formatted message of
the last failing file, when any file fails. -/
def lastFailureMsg (files : List FileInput) : Option String :=
  ((files.filter fun f => detectSystem f.name = none).getLast?).map
    fun f => "Failed to add " ++ f.name ++ ": " ++ ("Unknown file type: " ++ f.name)

/-- Observable interactions of the controller with the outside world:
hand-off of an engine configuration, injection of the engine loader
script, pausing/exiting a running engine, creating/revoking the
blob URL over the ROM payload. -/
inductive CtrlEvent where
  | engineConfigured (core : Option String)
  | loaderInjected
  | enginePausedExited
  | urlCreated
  | urlRevoked
  deriving DecidableEq, Repr

/-- The EmulatorJS configuration handed off through the `EJS_*` globals.
`core` is `systemInfo.core`, which is `undefined` (`none`) when
`systemInfo` is a truthy value inherited from `Object.prototype` rather
than a table entry. -/
structure EjsConfig where
  player : String
  core : Option String
  gameUrl : Bytes
  gameName : String
  color : String
  startOnLoaded : Bool
  pathtodata : String
  deriving DecidableEq, Repr

/-- The emulator component's state: the store, the fields of the class,
and the ambient browser state it manipulates (`EJS_*` globals, injected
loader scripts, the `window.EJS_emulator` handle), plus the event trace. -/
structure CtrlState where
  db : DB
  currentRom : Option GameRom
  isPlaying : Bool
  error : String
  currentRomUrl : Option Bytes
  ejsConfig : Option EjsConfig
  loaderScripts : Nat
  ejsEmulator : Bool
  trace : List CtrlEvent
  deriving DecidableEq, Repr

/-- The component's state right after construction/`ngOnInit`: nothing
playing, no blob URL, no engine state. -/
def initCtrl (db : DB) : CtrlState :=
  { db := db, currentRom := none, isPlaying := false, error := "",
    currentRomUrl := none, ejsConfig := none, loaderScripts := 0,
    ejsEmulator := false, trace := [] }

/-- `stopEmulator()`: pause/exit and drop the engine handle when present
(exceptions from the engine are caught), revoke the blob URL when present,
clear engine-injected DOM/scripts and the `EJS_*` globals, and return to
not-playing with no current ROM. -/
def stopEmulator (st : CtrlState) : CtrlState :=
  let st1 :=
    if st.ejsEmulator then
      { st with ejsEmulator := false, trace := st.trace ++ [CtrlEvent.enginePausedExited] }
    else st
  let st2 :=
    match st1.currentRomUrl with
    | some _ =>
      { st1 with
        currentRomUrl := none
        trace := st1.trace ++ [CtrlEvent.urlRevoked] }
    | none => st1
  { st2 with
    loaderScripts := 0
    ejsConfig := none
    isPlaying := false
    currentRom := none }

/-- `ngOnDestroy()`: controller teardown stops the emulator. -/
def ngOnDestroy (st : CtrlState) : CtrlState := stopEmulator st

/-- The configure-and-launch tail of `initEmulator`, reached whenever the
`if (!systemInfo)` truthiness guard passes: creates the blob URL, hands
the `EJS_*` configuration off and injects the loader script. -/
def initEmulatorConfigure (st : CtrlState) (rom : GameRom)
    (core : Option String) : CtrlState :=
  let st1 :=
    { st with
      currentRomUrl := some rom.data
      trace := st.trace ++ [CtrlEvent.urlCreated] }
  let cfg : EjsConfig :=
    { player := "#emulator-game", core := core, gameUrl := rom.data,
      gameName := rom.name, color := "#9B59B6", startOnLoaded := true,
      pathtodata := "https://cdn.emulatorjs.org/stable/data/" }
  let st2 :=
    { st1 with
      ejsConfig := some cfg
      trace := st1.trace ++ [CtrlEvent.engineConfigured core] }
  { st2 with
    loaderScripts := st2.loaderScripts + 1
    trace := st2.trace ++ [CtrlEvent.loaderInjected] }

/-- `initEmulator(rom)`: evaluates `SYSTEM_INFO[rom.system]` by JavaScript
property access; only a falsy result (`undefined`: neither an own key nor
an `Object.prototype` property) sets `error` to `Unknown system: <tag>`,
stops, and returns without touching the engine.  A table entry configures
the engine with its core; a truthy inherited prototype value also passes
the guard and configures the engine, with `EJS_core` left `undefined`. -/
def initEmulator (st : CtrlState) (rom : GameRom) : CtrlState :=
  match getSystemInfoProp rom.system with
  | SysProp.absent =>
    stopEmulator { st with error := "Unknown system: " ++ rom.system }
  | SysProp.own info => initEmulatorConfigure st rom (some info.core)
  | SysProp.inherited => initEmulatorConfigure st rom none

/-- `playRom(rom)`: records the ROM as current, sets `isPlaying`, marks
last-played in the store when the record has an id, then (after the view
settles) runs `initEmulator`. -/
def playRom (st : CtrlState) (rom : GameRom) (now : Nat) : CtrlState :=
  let st1 := { st with currentRom := some rom, isPlaying := true }
  let st2 :=
    match rom.id with
    | some id => { st1 with db := updateLastPlayed st1.db id now }
    | none => st1
  initEmulator st2 rom

/-! ## Lemmas about the string helpers -/

theorem splitAux_eq_of_not_mem {sep : Char} {cs : List Char} (h : sep ∉ cs) :
    splitAux sep cs = (cs, []) := by
  induction cs with
  | nil => rfl
  | cons c t ih =>
    simp only [List.mem_cons, not_or] at h
    simp [splitAux, ih h.2, Ne.symm h.1]

theorem splitAux_cons_self {sep : Char} (t : List Char) :
    splitAux sep (sep :: t) = ([], (splitAux sep t).1 :: (splitAux sep t).2) := by
  simp [splitAux]

theorem splitAux_cons_ne {sep c : Char} (hc : c ≠ sep) (t : List Char) :
    splitAux sep (c :: t) = (c :: (splitAux sep t).1, (splitAux sep t).2) := by
  simp [splitAux, hc]

theorem splitAux_snd_ne_nil {sep : Char} : ∀ {cs : List Char},
    sep ∈ cs → (splitAux sep cs).2 ≠ []
  | c :: t, h => by
    by_cases hc : c = sep
    · simp [splitAux, hc]
    · have ht : sep ∈ t := by
        rcases List.mem_cons.mp h with h1 | h1
        · exact absurd h1.symm hc
        · exact h1
      have hrec := splitAux_snd_ne_nil ht
      simpa [splitAux, hc] using hrec

theorem getLastD_congr {α : Type} {l : List α} (h : l ≠ []) (a b : α) :
    l.getLastD a = l.getLastD b := by
  cases l with
  | nil => exact absurd rfl h
  | cons x t => rw [List.getLastD_cons, List.getLastD_cons]

theorem lastSegment_of_not_mem {sep : Char} {cs : List Char} (h : sep ∉ cs) :
    lastSegment sep cs = cs := by
  unfold lastSegment
  rw [splitAux_eq_of_not_mem h]
  rfl

theorem lastSegment_append {sep : Char} {v : List Char} (hv : sep ∉ v) :
    ∀ base : List Char, lastSegment sep (base ++ sep :: v) = v := by
  intro base
  induction base with
  | nil =>
    unfold lastSegment
    rw [List.nil_append, splitAux_cons_self, splitAux_eq_of_not_mem hv]
    rfl
  | cons c t ih =>
    have hne : (splitAux sep (t ++ sep :: v)).2 ≠ [] :=
      splitAux_snd_ne_nil (by simp)
    unfold lastSegment at ih ⊢
    by_cases hc : c = sep
    · subst hc
      rw [List.cons_append, splitAux_cons_self]
      show ((splitAux c (t ++ c :: v)).1 :: (splitAux c (t ++ c :: v)).2).getLastD [] = v
      rw [List.getLastD_cons]
      exact ih
    · rw [List.cons_append, splitAux_cons_ne hc]
      show ((splitAux sep (t ++ sep :: v)).2).getLastD (c :: (splitAux sep (t ++ sep :: v)).1) = v
      rw [getLastD_congr hne (c :: (splitAux sep (t ++ sep :: v)).1)
        ((splitAux sep (t ++ sep :: v)).1)]
      exact ih

theorem toLower_dot : Char.toLower '.' = '.' := by decide

theorem not_dot_of_map_toLower {v w : List Char}
    (hmap : v.map Char.toLower = w) (hw : '.' ∉ w) : '.' ∉ v := by
  intro hv
  have hmem : Char.toLower '.' ∈ v.map Char.toLower := List.mem_map_of_mem _ hv
  rw [hmap, toLower_dot] at hmem
  exact hw hmem

theorem extOf_append {base v : List Char} (hv : '.' ∉ v) :
    extOf ⟨base ++ '.' :: v⟩ = ⟨'.' :: v.map Char.toLower⟩ := by
  unfold extOf
  show String.mk ('.' :: (lastSegment '.' (base ++ '.' :: v)).map Char.toLower) = _
  rw [lastSegment_append hv base]

theorem extOf_of_not_mem {cs : List Char} (h : '.' ∉ cs) :
    extOf ⟨cs⟩ = ⟨'.' :: cs.map Char.toLower⟩ := by
  unfold extOf
  show String.mk ('.' :: (lastSegment '.' cs).map Char.toLower) = _
  rw [lastSegment_of_not_mem h]

theorem detectSystem_eq_lookup (f : String) :
    detectSystem f = lookupByExt (extOf f) := rfl

/-- No extension in the static table contains a dot after its leading dot. -/
theorem table_ext_tail_no_dot :
    ∀ p ∈ SYSTEM_INFO, ∀ E ∈ p.2.extensions, '.' ∉ E.data.tail := by decide

/-! ## C6, C10, C2: extension detection -/

/-- C6 (confirmed): `detectSystem` lowercases the filename's extension and
scans the static table in declaration order: it returns `some S` exactly
when the table splits into earlier entries, none listing the extension,
followed by the entry for `S`, which does; it returns `none` exactly when
no entry lists the extension; and every filename ending in `.bin` in any
letter case detects as `psx`, the first-declared system listing `.bin`. -/
theorem C6_detect_first_match :
    (∀ f S, detectSystem f = some S ↔
      ∃ info l₁ l₂, SYSTEM_INFO = l₁ ++ (S, info) :: l₂ ∧
        extOf f ∈ info.extensions ∧ ∀ q ∈ l₁, extOf f ∉ q.2.extensions) ∧
    (∀ f, detectSystem f = none ↔ ∀ p ∈ SYSTEM_INFO, extOf f ∉ p.2.extensions) ∧
    (∀ base v, v.map Char.toLower = "bin".data →
      detectSystem ⟨base ++ '.' :: v⟩ = some "psx") := by
  refine ⟨?_, ?_, ?_⟩
  · intro f S
    rw [detectSystem_eq_lookup]
    unfold lookupByExt
    constructor
    · intro h
      rcases Option.map_eq_some'.mp h with ⟨pr, hfind, hfst⟩
      obtain ⟨S', info⟩ := pr
      cases hfst
      rcases List.find?_eq_some.mp hfind with ⟨hp, as, bs, heq, hprev⟩
      refine ⟨info, as, bs, heq, by simpa using hp, ?_⟩
      intro q hq
      have := hprev q hq
      simpa using this
    · rintro ⟨info, l₁, l₂, heq, hext, hprev⟩
      rw [heq, List.find?_append]
      have h1 : List.find? (fun p => p.2.extensions.contains (extOf f)) l₁ = none := by
        rw [List.find?_eq_none]
        intro q hq
        simpa using hprev q hq
      have h2 : List.find? (fun p => p.2.extensions.contains (extOf f))
          ((S, info) :: l₂) = some (S, info) :=
        List.find?_cons_of_pos _ (by simpa using hext)
      rw [h1, h2]
      rfl
  · intro f
    rw [detectSystem_eq_lookup]
    unfold lookupByExt
    rw [Option.map_eq_none', List.find?_eq_none]
    constructor
    · intro h p hp
      have := h p hp
      simpa using this
    · intro h p hp
      simpa using h p hp
  · intro base v hv
    have hvd : '.' ∉ v := not_dot_of_map_toLower hv (by decide)
    rw [detectSystem_eq_lookup, extOf_append hvd, hv]
    decide

/-- C6 witness: the first-match characterization applied to a concrete
uppercase `.BIN` filename. -/
theorem C6_detect_first_match_witness :
    ("BIN".data.map Char.toLower = "bin".data) ∧
    detectSystem ⟨"Game".data ++ '.' :: "BIN".data⟩ = some "psx" :=
  ⟨by decide, C6_detect_first_match.2.2 "Game".data "BIN".data (by decide)⟩

/-- C10 (confirmed): for a filename containing no dot, `detectSystem` looks
up `'.'` followed by the entire lowercased filename, so an extensionless
file whose lowercased name matches a known extension is assigned that
system — `detectSystem "nes"` returns the `nes` tag. -/
theorem C10_extensionless_detection :
    (∀ f : String, '.' ∉ f.data →
      detectSystem f = lookupByExt ⟨'.' :: f.data.map Char.toLower⟩) ∧
    detectSystem "nes" = some "nes" := by
  constructor
  · intro f hf
    rw [detectSystem_eq_lookup]
    show lookupByExt (extOf ⟨f.data⟩) = _
    rw [extOf_of_not_mem hf]
  · decide

/-- C10 witness: the characterization applied to the concrete dotless
filename `GB`, which detects as the Game Boy system. -/
theorem C10_extensionless_detection_witness :
    ('.' ∉ "GB".data) ∧
    detectSystem "GB" = lookupByExt ⟨'.' :: "GB".data.map Char.toLower⟩ :=
  ⟨by decide, C10_extensionless_detection.1 "GB" (by decide)⟩

/-- C2 (counterexample): `.bin` is listed for `segaMD` in `SYSTEM_INFO`,
yet `detectSystem "game.bin"` returns `psx`, not `segaMD` — detection does
not recover every system from each of its own listed extensions. -/
theorem C2_detect_counterexample :
    ".bin" ∈ (lookupSystemInfo "segaMD").elim [] SysInfo.extensions ∧
    detectSystem "game.bin" = some "psx" ∧ ("psx" : String) ≠ "segaMD" := by
  decide

/-- C2 (amended): for every system `S` with listed extension `E`, every
base name and every letter-case variant `v` of `E`, detection on the
concatenation returns the table lookup at `E` — the first-declared system
listing `E` — which is `S` itself whenever no earlier-declared entry lists
`E` (shared extensions such as `.bin`, `.iso`, `.cue` resolve to the
first-declared system instead). -/
theorem C2_detect_amended :
    ∀ S info E (base v : List Char),
      (S, info) ∈ SYSTEM_INFO → E ∈ info.extensions →
      ('.' :: v.map Char.toLower : List Char) = E.data →
      detectSystem ⟨base ++ '.' :: v⟩ = lookupByExt E ∧
      (∀ l₁ l₂, SYSTEM_INFO = l₁ ++ (S, info) :: l₂ →
        (∀ q ∈ l₁, E ∉ q.2.extensions) →
        detectSystem ⟨base ++ '.' :: v⟩ = some S) := by
  intro S info E base v hS hE hv
  have htail : '.' ∉ E.data.tail := table_ext_tail_no_dot (S, info) hS E hE
  have hmap : v.map Char.toLower = E.data.tail := by
    have := congrArg List.tail hv
    simpa using this
  have hvd : '.' ∉ v := not_dot_of_map_toLower hmap htail
  have hExt : extOf ⟨base ++ '.' :: v⟩ = E := by
    rw [extOf_append hvd]
    exact congrArg String.mk hv
  constructor
  · rw [detectSystem_eq_lookup, hExt]
  · intro l₁ l₂ heq hprev
    rw [detectSystem_eq_lookup, hExt]
    unfold lookupByExt
    rw [heq, List.find?_append]
    have h1 : List.find? (fun p => p.2.extensions.contains E) l₁ = none := by
      rw [List.find?_eq_none]
      intro q hq
      simpa using hprev q hq
    have h2 : List.find? (fun p => p.2.extensions.contains E)
        ((S, info) :: l₂) = some (S, info) :=
      List.find?_cons_of_pos _ (by simpa using hE)
    rw [h1, h2]
    rfl

/-- C2 witness: the amended characterization instantiated at the `nes`
entry and the uppercase variant `Mario.NES`. -/
theorem C2_detect_amended_witness :
    detectSystem ⟨"Mario".data ++ '.' :: "NES".data⟩ = lookupByExt ".nes" ∧
    detectSystem ⟨"Mario".data ++ '.' :: "NES".data⟩ = some "nes" := by
  have h := C2_detect_amended "nes" ⟨"Nintendo (NES)", [".nes"], "nes"⟩ ".nes"
    "Mario".data "NES".data (by decide) (by decide) (by decide)
  refine ⟨h.1, h.2 [] SYSTEM_INFO.tail (by decide) ?_⟩
  intro q hq
  cases hq

/-! ## C7: addRom resolution and error condition -/

/-- Every declared system tag is a nonempty string. -/
theorem tags_nonempty : ∀ t ∈ systemTags, t ≠ "" := by decide

/-- C7 (confirmed): `addRom` fails — with the `Unknown file type` condition
— exactly when no explicit system is given and detection yields nothing;
otherwise it succeeds with the explicit tag when one is given (else the
detected tag) and the extension-stripped display name. The hypothesis
restricts the explicit override to declared tags, as the `SystemType`
union does in the source. -/
theorem C7_add_rom_resolution :
    ∀ (db : DB) (file : FileInput) (system : Option String) (now : Nat),
      (∀ s, system = some s → s ∈ systemTags) →
      ((system = none ∧ detectSystem file.name = none →
        addRom db file system now = .error ("Unknown file type: " ++ file.name)) ∧
      (∀ s, system = some s →
        ∃ db' r, addRom db file system now = .ok (db', r) ∧
          r.system = s ∧ r.name = stripExt file.name) ∧
      (∀ t, system = none → detectSystem file.name = some t →
        ∃ db' r, addRom db file system now = .ok (db', r) ∧
          r.system = t ∧ r.name = stripExt file.name)) := by
  intro db file system now hvalid
  refine ⟨?_, ?_, ?_⟩
  · rintro ⟨h1, h2⟩
    subst h1
    simp [addRom, h2]
  · intro s hs
    subst hs
    have hne : s ≠ "" := tags_nonempty s (hvalid s rfl)
    refine ⟨{ db with roms := db.roms ++ [{ id := some db.nextRomId, name := stripExt file.name, fileName := file.name, system := s, data := file.data, dateAdded := now }], nextRomId := db.nextRomId + 1 }, { id := some db.nextRomId, name := stripExt file.name, fileName := file.name, system := s, data := file.data, dateAdded := now }, ?_, rfl, rfl⟩
    simp [addRom, hne]
  · intro t h1 h2
    subst h1
    refine ⟨{ db with roms := db.roms ++ [{ id := some db.nextRomId, name := stripExt file.name, fileName := file.name, system := t, data := file.data, dateAdded := now }], nextRomId := db.nextRomId + 1 }, { id := some db.nextRomId, name := stripExt file.name, fileName := file.name, system := t, data := file.data, dateAdded := now }, ?_, rfl, rfl⟩
    simp [addRom, h2]

/-- C7 witness: adding `Mario.nes` with no explicit system into a fresh
store succeeds with the detected `nes` tag and stripped name. -/
theorem C7_add_rom_resolution_witness :
    ∃ db' r, addRom DB.empty ⟨"Mario.nes", [1, 2]⟩ none 5 = .ok (db', r) ∧
      r.system = "nes" ∧ r.name = stripExt "Mario.nes" :=
  (C7_add_rom_resolution DB.empty ⟨"Mario.nes", [1, 2]⟩ none 5
    (by intro s h; cases h)).2.2 "nes" rfl (by decide)

/-! ## C9, C8: session stop safety and unsupported-system handling -/

/-- C9 (confirmed): stopping is safe from every controller state: it is
idempotent, always leaves the controller not playing with no current
record and no retained blob-URL reference, is the identity on a freshly
constructed (never-started) controller, and controller teardown
(`ngOnDestroy`) is exactly a stop. (The model is a total function: the
engine's `pause`/`exit` exceptions are caught by the source's `try`.) -/
theorem C9_stop_safe :
    (∀ st, stopEmulator (stopEmulator st) = stopEmulator st) ∧
    (∀ st, (stopEmulator st).isPlaying = false ∧
      (stopEmulator st).currentRom = none ∧
      (stopEmulator st).currentRomUrl = none) ∧
    (∀ db, stopEmulator (initCtrl db) = initCtrl db) ∧
    (∀ st, ngOnDestroy st = stopEmulator st) := by
  refine ⟨?_, ?_, ?_, fun _ => rfl⟩
  · intro st
    unfold stopEmulator
    by_cases h1 : st.ejsEmulator <;> cases h2 : st.currentRomUrl <;> simp [h1, h2]
  · intro st
    unfold stopEmulator
    by_cases h1 : st.ejsEmulator <;> cases h2 : st.currentRomUrl <;> simp [h1, h2]
  · intro db
    rfl

/-- A tag misses every own key of the table exactly when it is not a
declared system tag. -/
theorem find_tag_eq_none_iff {s : String} :
    (SYSTEM_INFO.find? fun p => p.1 = s) = none ↔ s ∉ systemTags := by
  rw [List.find?_eq_none]
  unfold systemTags
  constructor
  · intro h hmem
    rcases List.mem_map.mp hmem with ⟨p, hp, hps⟩
    exact h p hp (by simp [hps])
  · intro h p hp hps
    exact h (List.mem_map.mpr ⟨p, hp, by simpa using hps⟩)

/-- C8 (counterexample): a record tagged `constructor` — not a key of the
static table — does NOT surface the unsupported-system condition: the
bracket access finds the truthy inherited `Object.prototype.constructor`,
the guard is skipped, the loader is injected with an undefined core, and
the controller stays playing with no error. -/
theorem C8_unsupported_system_counterexample :
    ("constructor" : String) ∉ systemTags ∧
    (playRom (initCtrl DB.empty) { name := "X", fileName := "X", system := "constructor", data := [9], dateAdded := 0 } 7).isPlaying = true ∧
    (playRom (initCtrl DB.empty) { name := "X", fileName := "X", system := "constructor", data := [9], dateAdded := 0 } 7).currentRom = some { name := "X", fileName := "X", system := "constructor", data := [9], dateAdded := 0 } ∧
    (playRom (initCtrl DB.empty) { name := "X", fileName := "X", system := "constructor", data := [9], dateAdded := 0 } 7).error = "" ∧
    CtrlEvent.loaderInjected ∈ (playRom (initCtrl DB.empty) { name := "X", fileName := "X", system := "constructor", data := [9], dateAdded := 0 } 7).trace ∧
    (playRom (initCtrl DB.empty) { name := "X", fileName := "X", system := "constructor", data := [9], dateAdded := 0 } 7).ejsConfig = some { player := "#emulator-game", core := none, gameUrl := [9], gameName := "X", color := "#9B59B6", startOnLoaded := true, pathtodata := "https://cdn.emulatorjs.org/stable/data/" } := by
  refine ⟨by decide, by decide, by decide, by decide, by decide, by decide⟩

/-- C8 (amended): requesting play for a record whose system tag is neither
a key of the static `SYSTEM_INFO` table nor a property name inherited from
`Object.prototype` surfaces `Unknown system: <tag>` and ends with the
controller idle — no current record, not playing, no blob URL, no `EJS_*`
configuration — and the trace gains no engine-configuration or
loader-injection event for that request.  (For inherited property names
such as `constructor` the truthiness guard is skipped and the engine is
invoked despite the tag being absent from the table.) -/
theorem C8_unsupported_system_idle :
    ∀ (st : CtrlState) (rom : GameRom) (now : Nat),
      rom.system ∉ systemTags →
      rom.system ∉ objectPrototypeProps →
      ∃ extra, (playRom st rom now).trace = st.trace ++ extra ∧
        (∀ e ∈ extra, (∀ core, e ≠ CtrlEvent.engineConfigured core) ∧
          e ≠ CtrlEvent.loaderInjected) ∧
        (playRom st rom now).currentRom = none ∧
        (playRom st rom now).isPlaying = false ∧
        (playRom st rom now).currentRomUrl = none ∧
        (playRom st rom now).ejsConfig = none ∧
        (playRom st rom now).error = "Unknown system: " ++ rom.system := by
  intro st rom now htag hproto
  have habs : getSystemInfoProp rom.system = SysProp.absent := by
    unfold getSystemInfoProp
    rw [find_tag_eq_none_iff.mpr htag]
    rw [if_neg (by simpa using hproto)]
  unfold playRom initEmulator stopEmulator
  cases hid : rom.id <;>
    by_cases h1 : st.ejsEmulator <;> cases h2 : st.currentRomUrl <;>
      simp [habs, h1, h2]

/-! ## C5: ingestion batches -/

theorem addOneFile_trace (now : Nat) (st : IngestState) (file : FileInput) :
    (addOneFile now st file).trace = st.trace ++ [fileOutcome file] := by
  unfold addOneFile fileOutcome
  cases hd : detectSystem file.name <;> simp [addRom, hd]

theorem addOneFile_error (now : Nat) (st : IngestState) (file : FileInput) :
    (addOneFile now st file).error =
      match detectSystem file.name with
      | none => "Failed to add " ++ file.name ++ ": " ++ ("Unknown file type: " ++ file.name)
      | some _ => st.error := by
  unfold addOneFile
  cases hd : detectSystem file.name <;> simp [addRom, hd]

theorem ingest_fold_spec (now : Nat) : ∀ (files : List FileInput) (st : IngestState),
    (files.foldl (addOneFile now) st).trace = st.trace ++ files.map fileOutcome ∧
    (files.foldl (addOneFile now) st).error = (lastFailureMsg files).getD st.error := by
  intro files
  induction files with
  | nil => intro st; simp [lastFailureMsg]
  | cons f fs ih =>
    intro st
    rw [List.foldl_cons]
    rcases ih (addOneFile now st f) with ⟨iht, ihe⟩
    constructor
    · rw [iht, addOneFile_trace]
      simp
    · rw [ihe, addOneFile_error]
      unfold lastFailureMsg
      cases hd : detectSystem f.name with
      | some s => simp [hd]
      | none =>
        simp only [List.filter_cons, hd]
        cases hfs : (fs.filter fun f => detectSystem f.name = none) with
        | nil => simp [hfs]
        | cons g gs =>
          simp only [decide_True, if_true, List.getLast?_cons_cons]
          rw [List.getLast?_eq_getLast (g :: gs) (by simp)]
          simp

theorem fileOutcome_ne_reloaded (f : FileInput) :
    fileOutcome f ≠ IngestEvent.reloaded := by
  unfold fileOutcome
  cases detectSystem f.name <;> simp

/-- C5 (counterexample): ingesting two unrecognizable files leaves only the
second failure's message surfaced — the first failing file's name and
reason are overwritten and no longer appear — so the filenames and reasons
of every failing file in the batch are not all surfaced. -/
theorem C5_ingestion_counterexample :
    (addFiles DB.empty [⟨"alpha.xyz", []⟩, ⟨"beta.xyz", []⟩] 3).trace =
      [IngestEvent.failed "alpha.xyz" "Unknown file type: alpha.xyz",
       IngestEvent.failed "beta.xyz" "Unknown file type: beta.xyz",
       IngestEvent.reloaded] ∧
    (addFiles DB.empty [⟨"alpha.xyz", []⟩, ⟨"beta.xyz", []⟩] 3).error =
      "Failed to add beta.xyz: Unknown file type: beta.xyz" ∧
    hasSub "alpha.xyz".data
      (addFiles DB.empty [⟨"alpha.xyz", []⟩, ⟨"beta.xyz", []⟩] 3).error.data
      = false := by
  decide

/-- C5 (amended): within one ingestion batch the files are processed
strictly in submission order, each fully resolved before the next, and a
failure neither aborts nor reorders the rest (the trace is exactly one
outcome event per file, in order); the catalog is reloaded exactly once,
after the whole batch; but only the LAST failing file's name and reason
remain surfaced, each failure overwriting the previous message. -/
theorem C5_ingestion_amended :
    ∀ (db : DB) (files : List FileInput) (now : Nat),
      (addFiles db files now).trace =
        files.map fileOutcome ++ [IngestEvent.reloaded] ∧
      (addFiles db files now).trace.count IngestEvent.reloaded = 1 ∧
      (addFiles db files now).error = (lastFailureMsg files).getD "" := by
  intro db files now
  have h := ingest_fold_spec now files { db := db, error := "", trace := [] }
  have htr : (addFiles db files now).trace =
      files.map fileOutcome ++ [IngestEvent.reloaded] := by
    show (files.foldl (addOneFile now)
      { db := db, error := "", trace := [] }).trace ++ [IngestEvent.reloaded] = _
    rw [h.1]
    simp
  refine ⟨htr, ?_, ?_⟩
  · rw [htr]
    have hz : (files.map fileOutcome).count IngestEvent.reloaded = 0 := by
      rw [List.count_eq_zero]
      intro hmem
      rcases List.mem_map.mp hmem with ⟨f, _, hf⟩
      exact fileOutcome_ne_reloaded f hf
    simp [List.count_append, hz]
  · show (files.foldl (addOneFile now)
      { db := db, error := "", trace := [] }).error = _
    rw [h.2]

/-! ## C1: catalog sort order -/

theorem cmpChars_nil_le (z : List Char) : cmpChars [] z ≤ 0 := by
  cases z <;> simp [cmpChars]

theorem cmpChars_trans :
    ∀ x y z : List Char, cmpChars x y ≤ 0 → cmpChars y z ≤ 0 → cmpChars x z ≤ 0 := by
  intro x
  induction x with
  | nil => intro y z h1 h2; exact cmpChars_nil_le z
  | cons a as ih =>
    intro y z h1 h2
    cases y with
    | nil =>
      rw [show cmpChars (a :: as) [] = 1 from rfl] at h1
      omega
    | cons b bs =>
      cases z with
      | nil =>
        rw [show cmpChars (b :: bs) [] = 1 from rfl] at h2
        omega
      | cons c cs =>
        by_cases hac : a < c
        · simp [cmpChars, hac]
        · by_cases hca : c < a
          · exfalso
            have hab : a ≤ b := by
              by_contra hnot
              push_neg at hnot
              simp [cmpChars, lt_asymm hnot, hnot] at h1
            have hbc : b ≤ c := by
              by_contra hnot
              push_neg at hnot
              simp [cmpChars, lt_asymm hnot, hnot] at h2
            exact absurd (le_trans hab hbc) (not_le.mpr hca)
          · by_cases hab : a < b
            · have hbc : b ≤ c := by
                by_contra hnot
                push_neg at hnot
                simp [cmpChars, lt_asymm hnot, hnot] at h2
              exact absurd (lt_of_lt_of_le hab hbc) hac
            · by_cases hba : b < a
              · exfalso
                simp [cmpChars, hab, hba] at h1
              · have hab_eq : a = b := le_antisymm (le_of_not_lt hba) (le_of_not_lt hab)
                subst hab_eq
                have hac_eq : a = c := le_antisymm (le_of_not_lt hca) (le_of_not_lt hac)
                subst hac_eq
                simp [cmpChars] at h1 h2 ⊢
                exact ih bs cs h1 h2

theorem cmpChars_antisymm : ∀ x y : List Char, cmpChars y x = - cmpChars x y
  | [], [] => rfl
  | [], _ :: _ => rfl
  | _ :: _, [] => rfl
  | a :: as, b :: bs => by
    by_cases h1 : a < b
    · simp [cmpChars, h1, lt_asymm h1]
    · by_cases h2 : b < a
      · simp [cmpChars, h1, h2]
      · simp [cmpChars, h1, h2, cmpChars_antisymm as bs]

theorem romLe_total : ∀ a b : GameRom, romLe a b ∨ romLe b a := by
  intro a b
  unfold romLe romCmp
  cases ha : a.lastPlayed <;> cases hb : b.lastPlayed <;> simp [localeCompare]
  · have := cmpChars_antisymm a.name.data b.name.data
    omega
  · omega

theorem romLe_trans : ∀ a b c : GameRom, romLe a b → romLe b c → romLe a c := by
  intro a b c h1 h2
  unfold romLe romCmp at h1 h2 ⊢
  cases ha : a.lastPlayed <;> cases hb : b.lastPlayed <;> cases hc : c.lastPlayed <;>
    simp only [ha, hb] at h1 <;> simp only [hb, hc] at h2 <;> simp only [ha, hc] <;>
    try omega
  exact cmpChars_trans _ _ _ h1 h2

/-- C1 (counterexample): two records with equal last-played timestamps and
names in descending order stay in their original order — the sort does NOT
tie-break equal timestamps by name, so the claimed name tie-break fails. -/
theorem C1_sort_counterexample :
    filterRoms "all" ""
      [{ name := "Zebra", fileName := "z.nes", system := "nes", data := [], dateAdded := 0, lastPlayed := some 5 },
       { name := "Aardvark", fileName := "a.nes", system := "nes", data := [], dateAdded := 0, lastPlayed := some 5 }] =
      [{ name := "Zebra", fileName := "z.nes", system := "nes", data := [], dateAdded := 0, lastPlayed := some 5 },
       { name := "Aardvark", fileName := "a.nes", system := "nes", data := [], dateAdded := 0, lastPlayed := some 5 }] ∧
    filterRoms "all" ""
      [{ name := "Zebra", fileName := "z.nes", system := "nes", data := [], dateAdded := 0, lastPlayed := some 5 },
       { name := "Aardvark", fileName := "a.nes", system := "nes", data := [], dateAdded := 0, lastPlayed := some 5 }] ≠
      [{ name := "Aardvark", fileName := "a.nes", system := "nes", data := [], dateAdded := 0, lastPlayed := some 5 },
       { name := "Zebra", fileName := "z.nes", system := "nes", data := [], dateAdded := 0, lastPlayed := some 5 }] ∧
    localeCompare "Aardvark" "Zebra" < 0 := by
  refine ⟨by decide, by decide, by decide⟩

/-- C1 (amended): the sort is a stable total preorder in which timestamped
records precede non-timestamped ones, more recent timestamps come first,
and two records without timestamps are in ascending name order; records
with EQUAL timestamps keep their original relative order (stability)
rather than being tie-broken by name; the concrete scenario sorts to
[A, B, C, D]. -/
theorem C1_sort_amended :
    ∀ (selectedSystem searchTerm : String) (roms : List GameRom),
      (filterRoms selectedSystem searchTerm roms).Perm
        (roms.filter (romMatches selectedSystem searchTerm)) ∧
      (filterRoms selectedSystem searchTerm roms).Pairwise romLe ∧
      (∀ a b, romLe a b ∨ romLe b a) ∧
      (∀ c : List GameRom, c.Pairwise romLe →
        c.Sublist (roms.filter (romMatches selectedSystem searchTerm)) →
        c.Sublist (filterRoms selectedSystem searchTerm roms)) ∧
      (∀ a b, romLe a b ↔
        match a.lastPlayed, b.lastPlayed with
        | some ta, some tb => tb ≤ ta
        | some _, none => True
        | none, some _ => False
        | none, none => cmpChars a.name.data b.name.data ≤ 0) ∧
      filterRoms "all" ""
        [{ name := "Zebra", fileName := "d.nes", system := "nes", data := [], dateAdded := 0 },
         { name := "B", fileName := "b.nes", system := "nes", data := [], dateAdded := 0, lastPlayed := some 1 },
         { name := "Aardvark", fileName := "c.nes", system := "nes", data := [], dateAdded := 0 },
         { name := "A", fileName := "a.nes", system := "nes", data := [], dateAdded := 0, lastPlayed := some 2 }] =
        [{ name := "A", fileName := "a.nes", system := "nes", data := [], dateAdded := 0, lastPlayed := some 2 },
         { name := "B", fileName := "b.nes", system := "nes", data := [], dateAdded := 0, lastPlayed := some 1 },
         { name := "Aardvark", fileName := "c.nes", system := "nes", data := [], dateAdded := 0 },
         { name := "Zebra", fileName := "d.nes", system := "nes", data := [], dateAdded := 0 }] := by
  intro selectedSystem searchTerm roms
  haveI : IsTotal GameRom romLe := ⟨romLe_total⟩
  haveI : IsTrans GameRom romLe := ⟨romLe_trans⟩
  refine ⟨List.perm_insertionSort romLe _, List.sorted_insertionSort romLe _,
    romLe_total, ?_, ?_, by decide⟩
  · intro c hp hs
    exact List.sublist_insertionSort hp hs
  · intro a b
    unfold romLe romCmp
    cases ha : a.lastPlayed <;> cases hb : b.lastPlayed <;> simp [localeCompare]

/-- C1 witness: the stability clause applied to the pair of equal-timestamp
records from the counterexample input. -/
theorem C1_sort_amended_witness :
    [({ name := "Zebra", fileName := "z.nes", system := "nes", data := [], dateAdded := 0, lastPlayed := some 5 } : GameRom),
     { name := "Aardvark", fileName := "a.nes", system := "nes", data := [], dateAdded := 0, lastPlayed := some 5 }].Sublist
      (filterRoms "all" ""
        [{ name := "Zebra", fileName := "z.nes", system := "nes", data := [], dateAdded := 0, lastPlayed := some 5 },
         { name := "Aardvark", fileName := "a.nes", system := "nes", data := [], dateAdded := 0, lastPlayed := some 5 }]) :=
  (C1_sort_amended "all" ""
    [{ name := "Zebra", fileName := "z.nes", system := "nes", data := [], dateAdded := 0, lastPlayed := some 5 },
     { name := "Aardvark", fileName := "a.nes", system := "nes", data := [], dateAdded := 0, lastPlayed := some 5 }]).2.2.2.1
    _ (by decide) (by decide)

/-! ## C4: deleteRom cascades to save states -/

theorem foldDel_roms : ∀ (toDel : List SaveState) (cur : DB),
    (toDel.foldl delSaveStep cur).roms = cur.roms := by
  intro toDel
  induction toDel with
  | nil => intro cur; rfl
  | cons s ts ih =>
    intro cur
    rw [List.foldl_cons, ih]
    unfold delSaveStep
    cases s.id with
    | none => rfl
    | some sid =>
      by_cases h : sid = 0 <;> simp [h]

theorem foldDel_saves : ∀ (toDel : List SaveState) (cur : DB),
    (∀ s ∈ toDel, s.id ≠ none ∧ s.id ≠ some 0) →
    (toDel.foldl delSaveStep cur).saves =
      cur.saves.filter fun r => toDel.all fun s => r.id ≠ s.id := by
  intro toDel
  induction toDel with
  | nil =>
    intro cur _
    simp
  | cons s ts ih =>
    intro cur h
    rcases h s (List.mem_cons_self s ts) with ⟨hne, hz⟩
    rcases Option.ne_none_iff_exists'.mp hne with ⟨k, hk⟩
    have hk0 : k ≠ 0 := fun h0 => hz (by rw [hk, h0])
    rw [List.foldl_cons]
    rw [ih _ fun x hx => h x (List.mem_cons_of_mem s hx)]
    unfold delSaveStep
    simp only [hk]
    rw [if_pos hk0]
    show (cur.saves.filter fun r => r.id ≠ some k).filter _ = _
    rw [List.filter_filter]
    refine List.filter_congr ?_
    intro x _
    simp [hk, List.all_cons, Bool.and_comm]

/-- C4 (confirmed): after `deleteRom id` on a well-formed store, no
save-state record references ROM id `id` and no ROM record has key `id`;
the surviving ROM and save lists are exactly the original lists with those
records removed, so records belonging to other identifiers are unchanged
(this holds for any prior number of associated save states). -/
theorem C4_delete_rom_cascades :
    ∀ (db : DB) (id : Nat), SavesWF db →
      (deleteRom db id).roms = db.roms.filter (fun r => r.id ≠ some id) ∧
      (deleteRom db id).saves = db.saves.filter (fun s => s.romId ≠ id) ∧
      (deleteRom db id).saves.filter (fun s => s.romId = id) = [] ∧
      (deleteRom db id).roms.filter (fun r => r.id = some id) = [] ∧
      (∀ s ∈ db.saves, s.romId ≠ id → s ∈ (deleteRom db id).saves) ∧
      (∀ r ∈ db.roms, r.id ≠ some id → r ∈ (deleteRom db id).roms) := by
  intro db id hWF
  rcases hWF with ⟨hids, hdist, _⟩
  have hroms : (deleteRom db id).roms = db.roms.filter fun r => r.id ≠ some id := by
    unfold deleteRom
    rw [foldDel_roms]
  have hsaves : (deleteRom db id).saves = db.saves.filter fun s => s.romId ≠ id := by
    unfold deleteRom getSavesByRom
    rw [foldDel_saves _ _ fun s hs =>
      ⟨(hids s (List.mem_filter.mp hs).1).1, (hids s (List.mem_filter.mp hs).1).2.1⟩]
    refine List.filter_congr ?_
    intro r hr
    by_cases hrom : r.romId = id
    · have hrmem : r ∈ db.saves.filter fun s => decide (s.romId = id) :=
        List.mem_filter.mpr ⟨hr, by simp [hrom]⟩
      have hfalse : ((db.saves.filter fun s => decide (s.romId = id)).all
          fun s => decide (r.id ≠ s.id)) = false := by
        refine Bool.eq_false_iff.mpr ?_
        intro hall
        have h2 := List.all_eq_true.mp hall r hrmem
        simp at h2
      rw [hfalse]
      simp [hrom]
    · have htrue : ((db.saves.filter fun s => decide (s.romId = id)).all
          fun s => decide (r.id ≠ s.id)) = true := by
        rw [List.all_eq_true]
        intro s hs
        rcases List.mem_filter.mp hs with ⟨hsmem, hsid⟩
        have hsid' : s.romId = id := by simpa using hsid
        have hner : r ≠ s := fun h => hrom (by rw [h, hsid'])
        have hidne : r.id ≠ s.id :=
          List.Pairwise.forall (fun _ _ h => h.symm) hdist hr hsmem hner
        simpa using hidne
      rw [htrue]
      simp [hrom]
  refine ⟨hroms, hsaves, ?_, ?_, ?_, ?_⟩
  · rw [hsaves, List.filter_filter]
    simp
  · rw [hroms, List.filter_filter]
    simp
  · intro s hs hsrom
    rw [hsaves]
    exact List.mem_filter.mpr ⟨hs, by simp [hsrom]⟩
  · intro r hr hrid
    rw [hroms]
    exact List.mem_filter.mpr ⟨hr, by simp [hrid]⟩

/-- C4 witness: deleting ROM 1, which owns two save states, from a store
that also holds ROM 2 with one save state, removes exactly ROM 1 and its
two saves. -/
theorem C4_delete_rom_cascades_witness :
    (deleteRom { roms := [{ id := some 1, name := "a", fileName := "a.nes", system := "nes", data := [], dateAdded := 0 }, { id := some 2, name := "b", fileName := "b.gb", system := "gb", data := [], dateAdded := 0 }], nextRomId := 3, saves := [{ id := some 1, romId := 1, slot := 0, data := [7], dateSaved := 1 }, { id := some 2, romId := 1, slot := 1, data := [8], dateSaved := 2 }, { id := some 3, romId := 2, slot := 0, data := [9], dateSaved := 3 }], nextSaveId := 4 } 1).saves.filter (fun s => s.romId = 1) = [] ∧
    (deleteRom { roms := [{ id := some 1, name := "a", fileName := "a.nes", system := "nes", data := [], dateAdded := 0 }, { id := some 2, name := "b", fileName := "b.gb", system := "gb", data := [], dateAdded := 0 }], nextRomId := 3, saves := [{ id := some 1, romId := 1, slot := 0, data := [7], dateSaved := 1 }, { id := some 2, romId := 1, slot := 1, data := [8], dateSaved := 2 }, { id := some 3, romId := 2, slot := 0, data := [9], dateSaved := 3 }], nextSaveId := 4 } 1).saves = [{ id := some 3, romId := 2, slot := 0, data := [9], dateSaved := 3 }] ∧
    (deleteRom { roms := [{ id := some 1, name := "a", fileName := "a.nes", system := "nes", data := [], dateAdded := 0 }, { id := some 2, name := "b", fileName := "b.gb", system := "gb", data := [], dateAdded := 0 }], nextRomId := 3, saves := [{ id := some 1, romId := 1, slot := 0, data := [7], dateSaved := 1 }, { id := some 2, romId := 1, slot := 1, data := [8], dateSaved := 2 }, { id := some 3, romId := 2, slot := 0, data := [9], dateSaved := 3 }], nextSaveId := 4 } 1).roms = [{ id := some 2, name := "b", fileName := "b.gb", system := "gb", data := [], dateAdded := 0 }] := by
  have h := C4_delete_rom_cascades { roms := [{ id := some 1, name := "a", fileName := "a.nes", system := "nes", data := [], dateAdded := 0 }, { id := some 2, name := "b", fileName := "b.gb", system := "gb", data := [], dateAdded := 0 }], nextRomId := 3, saves := [{ id := some 1, romId := 1, slot := 0, data := [7], dateSaved := 1 }, { id := some 2, romId := 1, slot := 1, data := [8], dateSaved := 2 }, { id := some 3, romId := 2, slot := 0, data := [9], dateSaved := 3 }], nextSaveId := 4 } 1 (by unfold SavesWF; refine ⟨by decide, by decide, by decide⟩)
  refine ⟨h.2.2.1, ?_, ?_⟩
  · rw [h.2.1]
    decide
  · rw [h.1]
    decide

/-! ## C3: save-state upsert -/

theorem map_replace_eq_self {tid : Option Nat} {x : SaveState} :
    ∀ {l : List SaveState}, (∀ r ∈ l, r.id ≠ tid) →
      (l.map fun r => if r.id = tid then x else r) = l := by
  intro l
  induction l with
  | nil => intro _; rfl
  | cons a t ih =>
    intro h
    rw [List.map_cons, if_neg (h a (List.mem_cons_self a t)),
      ih fun r hr => h r (List.mem_cons_of_mem a hr)]

theorem find_slot_eq (db : DB) (romId slot : Nat) :
    (getSavesByRom db romId).find? (fun s => s.slot = slot) =
      db.saves.find? (fun s => s.romId = romId && s.slot = slot) := by
  unfold getSavesByRom
  rw [List.find?_filter]
  congr 1
  funext a
  simp

/-- A single upsert that finds an existing record for the `(romId, slot)`
pair overwrites that record's payload, screenshot and timestamp in place,
keeping its identifier, and touches nothing else. -/
theorem upsert_found (db : DB) (romId slot : Nat) (data : Bytes)
    (scr : Option String) (now : Nat) (e : SaveState)
    (hids : ∀ s ∈ db.saves, s.id ≠ none)
    (hfind : (getSavesByRom db romId).find? (fun s => s.slot = slot) = some e) :
    saveSaveState db romId slot data scr now =
      { db with saves := db.saves.map fun r =>
          if r.id = e.id then { id := e.id, romId := romId, slot := slot, data := data, screenshot := scr, dateSaved := now } else r } := by
  have hmem : e ∈ db.saves := (List.mem_filter.mp (List.mem_of_find?_eq_some hfind)).1
  rcases Option.ne_none_iff_exists'.mp (hids e hmem) with ⟨k, hk⟩
  have hany : (db.saves.any fun r => r.id = some k) = true :=
    List.any_eq_true.mpr ⟨e, hmem, by simp [hk]⟩
  simp only [saveSaveState, hfind, putSaveAt, hk, Option.some_bind, hany, if_true]

/-- A single upsert that finds no record for the `(romId, slot)` pair
appends a new record under the next fresh key. -/
theorem upsert_notfound (db : DB) (romId slot : Nat) (data : Bytes)
    (scr : Option String) (now : Nat)
    (hfind : (getSavesByRom db romId).find? (fun s => s.slot = slot) = none) :
    saveSaveState db romId slot data scr now =
      { db with saves := db.saves ++ [{ id := some db.nextSaveId, romId := romId, slot := slot, data := data, screenshot := scr, dateSaved := now }], nextSaveId := db.nextSaveId + 1 } := by
  simp only [saveSaveState, hfind, Option.none_bind]

/-- C3 (confirmed): on a well-formed store with at most one record per
`(romId, slot)` pair, an upsert for a pair that already has a record
overwrites that record's payload, screenshot and timestamp in place while
keeping its identifier, and inserts a new record only when no record for
the pair exists; two successive upserts for the same pair leave exactly
one record for it, holding the second payload and the identifier assigned
at the first call. -/
theorem C3_upsert_save_state :
    ∀ (db : DB) (romId slot : Nat) (pA pB : Bytes) (scrA scrB : Option String) (t1 t2 : Nat),
      SavesWF db → SlotUnique db →
      (∀ e, (getSavesByRom db romId).find? (fun s => s.slot = slot) = some e →
        saveSaveState db romId slot pA scrA t1 =
          { db with saves := db.saves.map fun r => if r.id = e.id then { id := e.id, romId := romId, slot := slot, data := pA, screenshot := scrA, dateSaved := t1 } else r }) ∧
      ((getSavesByRom db romId).find? (fun s => s.slot = slot) = none →
        saveSaveState db romId slot pA scrA t1 =
          { db with saves := db.saves ++ [{ id := some db.nextSaveId, romId := romId, slot := slot, data := pA, screenshot := scrA, dateSaved := t1 }], nextSaveId := db.nextSaveId + 1 }) ∧
      ((saveSaveState (saveSaveState db romId slot pA scrA t1) romId slot pB scrB t2).saves.filter
          (fun s => s.romId = romId && s.slot = slot) =
        [{ id := match (getSavesByRom db romId).find? (fun s => s.slot = slot) with
                 | some e => e.id
                 | none => some db.nextSaveId,
           romId := romId, slot := slot, data := pB, screenshot := scrB, dateSaved := t2 }]) := by
  intro db romId slot pA pB scrA scrB t1 t2 hWF hSU
  obtain ⟨hids, hdist, hnext1⟩ := hWF
  have hids' : ∀ s ∈ db.saves, s.id ≠ none := fun s hs => (hids s hs).1
  refine ⟨fun e hfind => upsert_found db romId slot pA scrA t1 e hids' hfind,
    fun hfind => upsert_notfound db romId slot pA scrA t1 hfind, ?_⟩
  cases hfind : (getSavesByRom db romId).find? (fun s => s.slot = slot) with
  | none =>
    have hfind' : db.saves.find? (fun s => s.romId = romId && s.slot = slot) = none := by
      rw [← find_slot_eq]; exact hfind
    have hnp := List.find?_eq_none.mp hfind'
    rw [upsert_notfound db romId slot pA scrA t1 hfind]
    have hne_next : ∀ r ∈ db.saves, r.id ≠ some db.nextSaveId := by
      intro r hr hEq
      have h3 := (hids r hr).2.2
      rw [hEq] at h3
      simp at h3
    have hfind2 : (getSavesByRom { db with saves := db.saves ++ [{ id := some db.nextSaveId, romId := romId, slot := slot, data := pA, screenshot := scrA, dateSaved := t1 }], nextSaveId := db.nextSaveId + 1 } romId).find? (fun s => s.slot = slot) = some { id := some db.nextSaveId, romId := romId, slot := slot, data := pA, screenshot := scrA, dateSaved := t1 } := by
      rw [find_slot_eq]
      show (db.saves ++ [_]).find? _ = _
      rw [List.find?_append, List.find?_eq_none.mpr hnp, Option.none_or]
      exact List.find?_cons_of_pos _ (by simp)
    have hids1 : ∀ s ∈ (db.saves ++ [({ id := some db.nextSaveId, romId := romId, slot := slot, data := pA, screenshot := scrA, dateSaved := t1 } : SaveState)]), s.id ≠ none := by
      intro s hs
      rcases List.mem_append.mp hs with h | h
      · exact hids' s h
      · rcases List.mem_singleton.mp h with rfl
        simp
    rw [upsert_found _ romId slot pB scrB t2 _ hids1 hfind2]
    show ((db.saves ++ [_]).map _).filter _ = _
    rw [List.map_append, map_replace_eq_self hne_next, List.map_cons]
    rw [List.filter_append]
    rw [List.filter_eq_nil_iff.mpr hnp]
    simp
  | some e =>
    have hfind' : db.saves.find? (fun s => s.romId = romId && s.slot = slot) = some e := by
      rw [← find_slot_eq]; exact hfind
    obtain ⟨hpre, as, bs, heq, hprev⟩ := List.find?_eq_some.mp hfind'
    have heP : e.romId = romId ∧ e.slot = slot := by simpa using hpre
    have hdist' : (as ++ e :: bs).Pairwise fun a b => a.id ≠ b.id := heq ▸ hdist
    rcases List.pairwise_append.mp hdist' with ⟨hdas, hdeb, hcross⟩
    rcases List.pairwise_cons.mp hdeb with ⟨hebs, hdbs⟩
    have has_ne : ∀ a ∈ as, a.id ≠ e.id :=
      fun a ha => hcross a ha e (List.mem_cons_self e bs)
    have hbs_ne : ∀ b ∈ bs, b.id ≠ e.id :=
      fun b hb hEq => (hebs b hb) hEq.symm
    have hSU' : (as ++ e :: bs).Pairwise fun a b => ¬(a.romId = b.romId ∧ a.slot = b.slot) := by
      unfold SlotUnique at hSU
      exact heq ▸ hSU
    rcases List.pairwise_append.mp hSU' with ⟨_, hSUeb, _⟩
    rcases List.pairwise_cons.mp hSUeb with ⟨hSUbs, _⟩
    have hnpbs : ∀ b ∈ bs, ¬((b.romId = romId && b.slot = slot) = true) := by
      intro b hb hpb
      simp at hpb
      exact hSUbs b hb ⟨by rw [heP.1, hpb.1], by rw [heP.2, hpb.2]⟩
    rw [upsert_found db romId slot pA scrA t1 e hids' hfind]
    have hmapf : (db.saves.map fun r => if r.id = e.id then { id := e.id, romId := romId, slot := slot, data := pA, screenshot := scrA, dateSaved := t1 } else r) = as ++ { id := e.id, romId := romId, slot := slot, data := pA, screenshot := scrA, dateSaved := t1 } :: bs := by
      rw [heq, List.map_append, List.map_cons, map_replace_eq_self has_ne,
        map_replace_eq_self hbs_ne, if_pos rfl]
    have hfind2 : (getSavesByRom { db with saves := db.saves.map fun r => if r.id = e.id then { id := e.id, romId := romId, slot := slot, data := pA, screenshot := scrA, dateSaved := t1 } else r } romId).find? (fun s => s.slot = slot) = some { id := e.id, romId := romId, slot := slot, data := pA, screenshot := scrA, dateSaved := t1 } := by
      rw [find_slot_eq]
      show (db.saves.map _).find? _ = _
      rw [hmapf, List.find?_append,
        List.find?_eq_none.mpr fun a ha hcontra => by
          have hx := hprev a ha
          rw [hcontra] at hx
          simp at hx, Option.none_or]
      exact List.find?_cons_of_pos _ (by simp)
    have emem : e ∈ db.saves := List.mem_of_find?_eq_some hfind'
    have heid : e.id ≠ none := hids' e emem
    have hids1 : ∀ s ∈ (db.saves.map fun r => if r.id = e.id then { id := e.id, romId := romId, slot := slot, data := pA, screenshot := scrA, dateSaved := t1 } else r), s.id ≠ none := by
      intro s hs
      rw [hmapf] at hs
      rcases List.mem_append.mp hs with h | h
      · exact hids' s (by rw [heq]; exact List.mem_append_left _ h)
      · rcases List.mem_cons.mp h with rfl | h2
        · exact heid
        · exact hids' s (by rw [heq]; exact List.mem_append_right _ (List.mem_cons_of_mem _ h2))
    rw [upsert_found _ romId slot pB scrB t2 _ hids1 hfind2]
    show ((db.saves.map _).map _).filter _ = _
    rw [hmapf, List.map_append, List.map_cons,
      map_replace_eq_self (fun a ha => has_ne a ha),
      map_replace_eq_self (fun b hb => hbs_ne b hb), if_pos rfl]
    rw [List.filter_append,
      List.filter_eq_nil_iff.mpr fun a ha hcontra => by
        have hx := hprev a ha
        rw [hcontra] at hx
        simp at hx]
    rw [List.filter_cons]
    rw [List.filter_eq_nil_iff.mpr hnpbs]
    simp

/-- C3 witness: two upserts into slot 2 of a fresh store leave exactly one
record, holding the second payload under the key assigned first. -/
theorem C3_upsert_save_state_witness :
    (saveSaveState (saveSaveState DB.empty 1 2 [10] none 0) 1 2 [20] none 1).saves.filter
        (fun s => s.romId = 1 && s.slot = 2) =
      [{ id := some 1, romId := 1, slot := 2, data := [20], screenshot := none, dateSaved := 1 }] :=
  (C3_upsert_save_state DB.empty 1 2 [10] [20] none none 0 1
    (by unfold SavesWF; exact ⟨by decide, List.Pairwise.nil, by decide⟩)
    (by unfold SlotUnique; exact List.Pairwise.nil)).2.2

/-- C8 witness: playing a record tagged with the unknown system `foo` —
neither a table key nor an inherited prototype property — on a fresh
controller ends idle with the `Unknown system` message surfaced. -/
theorem C8_unsupported_system_idle_witness :
    ∃ extra,
      (playRom (initCtrl DB.empty)
        { name := "X", fileName := "X.foo", system := "foo", data := [],
          dateAdded := 0 } 7).trace = (initCtrl DB.empty).trace ++ extra ∧
      (∀ e ∈ extra, (∀ core, e ≠ CtrlEvent.engineConfigured core) ∧
        e ≠ CtrlEvent.loaderInjected) ∧
      (playRom (initCtrl DB.empty)
        { name := "X", fileName := "X.foo", system := "foo", data := [],
          dateAdded := 0 } 7).currentRom = none ∧
      (playRom (initCtrl DB.empty)
        { name := "X", fileName := "X.foo", system := "foo", data := [],
          dateAdded := 0 } 7).isPlaying = false ∧
      (playRom (initCtrl DB.empty)
        { name := "X", fileName := "X.foo", system := "foo", data := [],
          dateAdded := 0 } 7).currentRomUrl = none ∧
      (playRom (initCtrl DB.empty)
        { name := "X", fileName := "X.foo", system := "foo", data := [],
          dateAdded := 0 } 7).ejsConfig = none ∧
      (playRom (initCtrl DB.empty)
        { name := "X", fileName := "X.foo", system := "foo", data := [],
          dateAdded := 0 } 7).error = "Unknown system: " ++ "foo" :=
  C8_unsupported_system_idle (initCtrl DB.empty)
    { name := "X", fileName := "X.foo", system := "foo", data := [],
      dateAdded := 0 } 7 (by decide) (by decide)

end Emu
